import Mathlib

/-!
Verification development for the Danesfield semantic-segmentation evaluator
(`danesfield/segmentation/semantic/tasks/eval.py`).

The embedding models:
* the tile partitioner `Evaluator.index_in_copy_out` (exact integer
  semantics; the Python source computes `np.ceil(width/1024.0)` and
  `int(width/nwids)` in IEEE double precision, which agrees with exact
  `Nat` floor/ceiling division for every width below `2^52`, far beyond
  any raster dimension);
* the border-trimming helper `Evaluator.cut_border` (numpy slice
  `image[b:-b, b:-b, ...]`, modelled on `List (List alpha)`, the element
  type alpha carrying the untouched trailing axes);
* the TTA predictor `predict` / `to_numpy` over real-valued grids
  (tensors are modelled as functions from integer spatial coordinates to
  reals; batch and channel axes are carried opaquely by working per cell;
  the tuple-unwrapping branch of `to_numpy` is elided as the model is
  an opaque function already);
* the tile stitcher `Evaluator.predict_samples_large` (the numpy
  assignment `predicted[..., outs:oute] = prediction[..., cps:cpe]`
  follows numpy broadcasting: after slice normalisation, a crop axis
  whose width equals the placement width is copied, a crop axis of
  width 1 is silently replicated across the placement, and any other
  width mismatch raises a `ValueError`, aborting the call — the abort is
  modelled as `Option.none` via an up-front check over all tiles, which
  is sound because the partial canvas never escapes in the source, and
  the placement ranges of every emitted tile lie inside the canvas so
  the placement width is `oute - outs` exactly);
* the fold-evaluation loop `Evaluator.predict` /
  `Evaluator.on_image_constructed`.  The per-batch driver
  `process_data` is abstract in the source (`raise NotImplementedError`);
  its only relevant effect is installing per-image state
  (`full_pred`/`full_image`/`full_mask`/`prev_name`) before
  `on_image_constructed` fires, so a fold's stream is modelled as the
  list of finalization inputs handed to `on_image_constructed`
  (including the final call at line 190 of the source).  Scores use `ℚ`
  in place of IEEE doubles; the claims about the evaluator concern
  control flow and list scoping, not rounding.
-/

namespace Danesfield

/-- One tile along one axis: `[ins, ine)` is the input window read from the
source raster, `[cps, cpe)` the crop taken from the tile's prediction, and
`[outs, oute)` the placement of that crop in the output canvas.  The six
parallel Python lists `insidx, ineidx, cpsidx, cpeidx, outsidx, outeidx`
are zipped into a list of these records. -/
structure TileSpec where
  ins : ℤ
  ine : ℤ
  cps : ℤ
  cpe : ℤ
  outs : ℤ
  oute : ℤ
deriving DecidableEq, Repr

/-- `nwids = int(np.ceil(width/1024.0))`: the number of tiles along the axis. -/
def nwids (w : ℕ) : ℕ := (w + 1023) / 1024

/-- `cpwid = int(width/nwids)`, bumped to the next even number
(`if cpwid % 2 == 1: cpwid += 1`). -/
def cpwid (w : ℕ) : ℕ :=
  if (w / nwids w) % 2 = 1 then w / nwids w + 1 else w / nwids w

/-- The first tile: window `[0,1024)`, crop `[0,cpwid)`, output `[0,cpwid)`. -/
def firstSpec (c : ℕ) : TileSpec :=
  ⟨0, 1024, 0, c, 0, c⟩

/-- Interior tile for loop index `i = k+1` (`for i in range(1, nwids-1)`):
`ins = int((i+0.5)*cpwid - 512)`, `ine = ins + 1024`,
`cps = int(512 - cpwid*0.5)`, `cpe = int(512 + cpwid*0.5)`,
`outs = cpwid*i`, `oute = cpwid*(i+1)`.  `cpwid` is always even, so the
float arithmetic is exact and `cpwid*0.5 = cpwid/2`. -/
def interiorSpec (c : ℕ) (k : ℕ) : TileSpec :=
  ⟨((k : ℤ) + 1) * c + (c : ℤ) / 2 - 512,
   ((k : ℤ) + 1) * c + (c : ℤ) / 2 - 512 + 1024,
   512 - (c : ℤ) / 2,
   512 + (c : ℤ) / 2,
   (c : ℤ) * ((k : ℤ) + 1),
   (c : ℤ) * ((k : ℤ) + 2)⟩

/-- The last tile: `rest = width - (nwids-1)*cpwid`, window
`[width-1024, width)`, crop `[1024-rest, 1024)`, output `[width-rest, width)`. -/
def lastSpec (w n c : ℕ) : TileSpec :=
  ⟨(w : ℤ) - 1024, w,
   1024 - ((w : ℤ) - ((n : ℤ) - 1) * c), 1024,
   (w : ℤ) - ((w : ℤ) - ((n : ℤ) - 1) * c), w⟩

/-- The full tile sequence for one axis: the first tile, the interior
tiles (`for i in range(1, nwids-1)`), and the last tile appended after
the loop. -/
def tileList (w : ℕ) : List TileSpec :=
  firstSpec (cpwid w) ::
    (List.range (nwids w - 2)).map (interiorSpec (cpwid w)) ++
    [lastSpec w (nwids w) (cpwid w)]

/-- `Evaluator.index_in_copy_out(width)`.  Returns `none` for
`width < 1024` (the source prints a message and returns `None`). -/
def index_in_copy_out (w : ℕ) : Option (List TileSpec) :=
  if w < 1024 then none
  else some (tileList w)

/-- Python slice `l[b:-b]`: drop `b` from the front and `b` from the back,
with Python's clamping semantics (empty when `2*b ≥ length`). -/
def pyTrim (b : ℕ) (l : List α) : List α :=
  (l.take (l.length - b)).drop b

/-- `Evaluator.cut_border`: `image if not self.border else
image[self.border:-self.border, self.border:-self.border, ...]`.
The image is a list of rows; each row is a list of cells of type alpha,
a cell carrying all trailing axes untouched. -/
def cut_border (b : ℕ) (img : List (List α)) : List (List α) :=
  if b = 0 then img else (pyTrim b img).map (pyTrim b)

/-! ### The TTA predictor (`flip_tensor_lr`, `flip_tensor_ud`, `to_numpy`,
`predict`), over real-valued grids. -/

/-- A tensor's spatial content: a value for each (row, column) pair.  The
batch and channel axes of the 4-D torch tensors are untouched by every
operation modelled here, so a single cell stands for the whole fibre. -/
def Grid : Type := ℤ → ℤ → ℝ

/-- `flip_tensor_lr`: reverse the last (column) axis of a batch whose
column count is `cols`. -/
def flip_tensor_lr (cols : ℕ) (t : Grid) : Grid :=
  fun i j => t i ((cols : ℤ) - 1 - j)

/-- `flip_tensor_ud`: reverse the row axis of a batch with `rows` rows. -/
def flip_tensor_ud (rows : ℕ) (t : Grid) : Grid :=
  fun i j => t ((rows : ℤ) - 1 - i) j

/-- `F.sigmoid`: the logistic squashing function. -/
noncomputable def sigmoid (x : ℝ) : ℝ := 1 / (1 + Real.exp (-x))

/-- `to_numpy`: `F.sigmoid(batch).data.cpu().numpy()` applied pointwise.
(The tuple-unwrapping branch is elided: the model is modelled as a
plain grid-to-grid function.) -/
noncomputable def to_numpy (t : Grid) : Grid :=
  fun i j => sigmoid (t i j)

/-- `predict(model, batch, flips)`: evaluate the model on the batch and,
for `flips > FLIP_NONE`, on flipped variants; the raw outputs are
stacked and averaged (`torch.mean(torch.stack(masks, 0), 0)`) and the
mean is passed through `to_numpy`.  `rows`/`cols` are the spatial sizes
the flips reverse over (`batch.data.size()[-2]`/`[-1]`). -/
noncomputable def predict (rows cols : ℕ) (model : Grid → Grid)
    (batch : Grid) (flips : ℕ) : Grid :=
  let pred1 := model batch
  if 0 < flips then
    let pred2 := flip_tensor_lr cols (model (flip_tensor_lr cols batch))
    let masks : List Grid :=
      if 1 < flips then
        let pred3 := flip_tensor_ud rows (model (flip_tensor_ud rows batch))
        let pred4 := flip_tensor_ud rows (flip_tensor_lr cols
          (model (flip_tensor_ud rows (flip_tensor_lr cols batch))))
        [pred1, pred2, pred3, pred4]
      else [pred1, pred2]
    to_numpy (fun i j => ((masks.map fun m => m i j).sum) / (masks.length : ℝ))
  else to_numpy pred1

/-- The list of raw (pre-squash) per-variant predictions that `predict`
stacks for a given flip setting, spelled out separately so theorems can
relate `predict` to averaging done before or after the squash. -/
def rawVariants (rows cols : ℕ) (model : Grid → Grid)
    (batch : Grid) (flips : ℕ) : List Grid :=
  if 1 < flips then
    [model batch,
     flip_tensor_lr cols (model (flip_tensor_lr cols batch)),
     flip_tensor_ud rows (model (flip_tensor_ud rows batch)),
     flip_tensor_ud rows (flip_tensor_lr cols
       (model (flip_tensor_ud rows (flip_tensor_lr cols batch))))]
  else
    [model batch,
     flip_tensor_lr cols (model (flip_tensor_lr cols batch))]

/-- Pointwise arithmetic mean of a list of grids. -/
noncomputable def pointMean (l : List Grid) : Grid :=
  fun i j => ((l.map fun m => m i j).sum) / (l.length : ℝ)

/-- The TTA combination the spec describes: squash each variant first,
then average the squashed predictions.  Stated from the spec's words for
comparison against `predict`. -/
noncomputable def predict_tta_spec (rows cols : ℕ) (model : Grid → Grid)
    (batch : Grid) (flips : ℕ) : Grid :=
  pointMean ((rawVariants rows cols model batch flips).map to_numpy)

/-! ### The tile stitcher (`Evaluator.predict_samples_large`). -/

/-- Python index normalisation for a slice bound on an axis of length `n`
(negative indices count from the end, then both bounds clamp to
`[0, n]`). -/
def pyNorm (i : ℤ) (n : ℕ) : ℤ :=
  if i < 0 then max 0 ((n : ℤ) + i) else min i n

/-- Length of the Python slice `l[s:e]` on an axis of length `n`. -/
def pySliceLen (s e : ℤ) (n : ℕ) : ℤ :=
  max 0 (pyNorm e n - pyNorm s n)

/-- The numpy assignment `predicted[..., outs:oute] = prediction[..., cps:cpe]`
succeeds on an axis when the slice of the 1024-wide prediction has the
width of the output placement, or has width 1 (numpy broadcasts a
size-1 axis on assignment, replicating it); any other mismatch raises
`ValueError` and aborts the call. -/
def axisBroadcastOk (t : TileSpec) : Bool :=
  decide (pySliceLen t.cps t.cpe 1024 = t.oute - t.outs) ||
  decide (pySliceLen t.cps t.cpe 1024 = 1)

/-- The prediction-axis index whose value lands at canvas coordinate `x`
of the tile's placement: the slice starts at the normalised bound
`pyNorm cps`, and when the slice's width is the placement width the
copy is elementwise, while a width-1 slice is broadcast — every
placement cell reads the slice's single element. -/
def cropIndex (t : TileSpec) (x : ℤ) : ℤ :=
  if pySliceLen t.cps t.cpe 1024 = t.oute - t.outs then
    pyNorm t.cps 1024 + (x - t.outs)
  else pyNorm t.cps 1024

/-- Does the tile pair's output placement contain the canvas cell? -/
abbrev pairCovers (p : TileSpec × TileSpec) (x y : ℤ) : Prop :=
  p.1.outs ≤ x ∧ x < p.1.oute ∧ p.2.outs ≤ y ∧ y < p.2.oute

/-- The value the (row-tile, column-tile) pair writes at canvas cell
`(x, y)`: the tile's prediction (the model run by `predict` on the
input window) sampled at the crop coordinate of the cell. -/
noncomputable def tileValue (flips : ℕ) (model : Grid → Grid) (image : Grid)
    (p : TileSpec × TileSpec) (x y : ℤ) : ℝ :=
  predict 1024 1024 model
    (fun a b => image (p.1.ins + a) (p.2.ins + b)) flips
    (cropIndex p.1 x) (cropIndex p.2 y)

/-- One iteration of the stitching loop: write the tile pair's crop into
its output placement, leaving every other canvas cell unchanged. -/
noncomputable def writeTile (flips : ℕ) (model : Grid → Grid) (image : Grid)
    (canvas : Grid) (p : TileSpec × TileSpec) : Grid :=
  fun x y =>
    if pairCovers p x y then tileValue flips model image p x y else canvas x y

/-- `Evaluator.predict_samples_large(model, data)` for an image of spatial
size `H × W`: partition both axes, then traverse the tile grid in
row-major order writing each crop into a zero-initialised canvas.
A failed partition (`None` unpacking) or a non-broadcastable
crop/placement shape mismatch raises in the source and aborts the call;
both are modelled as `none`.  A width-1 crop axis does NOT abort: numpy
broadcasts it, replicating the single slice element across the
placement (see `cropIndex`). -/
noncomputable def predict_samples_large (flips : ℕ) (model : Grid → Grid)
    (H W : ℕ) (image : Grid) : Option Grid :=
  match index_in_copy_out H, index_in_copy_out W with
  | some xs, some ys =>
    if xs.all axisBroadcastOk && ys.all axisBroadcastOk then
      some (((xs.map fun tx => ys.map fun ty => (tx, ty)).flatten).foldl
        (writeTile flips model image) fun _ _ => 0)
    else none
  | _, _ => none

/-- Concrete fixture: the raster whose value at `(x, y)` is the row
coordinate `x`, used to observe which source row a canvas cell reads. -/
noncomputable def coordGrid : Grid := fun x _ => (x : ℝ)

/-! ### The fold evaluator (`Evaluator.__init__`, `Evaluator.predict`,
`Evaluator.on_image_constructed`). -/

/-- Configuration bits the evaluation loop reads. -/
structure EvalConfig where
  dbg : Bool
  save_images : Bool
  test : Bool
deriving DecidableEq, Repr

/-- The mutable `Evaluator` attributes relevant to finalisation and
scoring.  `dice` is initialised to `[]` once, in `__init__`. -/
structure EvalState where
  full_pred : List (List ℚ)
  full_image : Option (List (List ℚ))
  full_mask : Option (List (List ℚ))
  border : ℕ
  prev_name : Option ℕ
  need_dice : Bool
  dice : List ℚ
deriving DecidableEq

/-- Calls the evaluator makes on its external display/persistence
collaborators while finalising one image. -/
inductive EmitEvent where
  | visualized : EmitEvent
  | saved : Option ℕ → String → EmitEvent
deriving DecidableEq, Repr

/-- `np.any(grid > .5)`. -/
def any_gt_half (g : List (List ℚ)) : Bool :=
  g.any fun row => row.any fun x => decide ((1 : ℚ) / 2 < x)

/-- `np.any(grid >= 1)`. -/
def any_ge_one (g : List (List ℚ)) : Bool :=
  g.any fun row => row.any fun x => decide ((1 : ℚ) ≤ x)

/-- `grid.flatten() > .5` as a boolean vector (row-major). -/
def flatten_gt_half (g : List (List ℚ)) : List Bool :=
  (g.map fun row => row.map fun x => decide ((1 : ℚ) / 2 < x)).flatten

/-- `grid.flatten() >= 1` as a boolean vector (row-major). -/
def flatten_ge_one (g : List (List ℚ)) : List Bool :=
  (g.map fun row => row.map fun x => decide ((1 : ℚ) ≤ x)).flatten

/-- `scipy.spatial.distance.dice(u, v)` on boolean vectors:
`(c_TF + c_FT) / (2*c_TT + c_FT + c_TF)`. -/
def dice_distance (u v : List Bool) : ℚ :=
  let pairs := u.zip v
  let ctt := (pairs.filter fun p => p.1 && p.2).length
  let ctf := (pairs.filter fun p => p.1 && !p.2).length
  let cft := (pairs.filter fun p => !p.1 && p.2).length
  ((ctf : ℚ) + cft) / (2 * ctt + ctf + cft)

/-- `Evaluator.on_image_constructed(prefix)`: trim the border from the
prediction, source image and mask; when a mask is present, either append
the image's Dice score (`1 - dice(pred > .5, mask >= 1)`) if prediction
or mask has a positive cell, or return early (the degenerate
all-negative case).  Reaching the tail of the method emits to the
visualize (`config.dbg`) and save (`config.save_images`) collaborators. -/
def on_image_constructed (cfg : EvalConfig) (st : EvalState) (pre : String) :
    EvalState × List EmitEvent :=
  let pred := cut_border st.border st.full_pred
  let image := st.full_image.map (cut_border st.border)
  let emits : List EmitEvent :=
    (if cfg.dbg then [EmitEvent.visualized] else []) ++
    (if cfg.save_images then [EmitEvent.saved st.prev_name pre] else [])
  match st.full_mask with
  | some m =>
    let mask := cut_border st.border m
    let st1 := { st with full_pred := pred, full_image := image,
                         full_mask := some mask }
    if any_gt_half pred || any_ge_one mask then
      let d := 1 - dice_distance (flatten_gt_half pred) (flatten_ge_one mask)
      ({ st1 with dice := st.dice ++ [d] }, emits)
    else (st1, [])
  | none => ({ st with full_pred := pred, full_image := image }, emits)

/-- The per-image state the (abstract, subclass-provided) `process_data`
driver installs on the evaluator before an image is finalised. -/
structure Finalization where
  pred : List (List ℚ)
  image : Option (List (List ℚ))
  mask : Option (List (List ℚ))
  name : Option ℕ
deriving DecidableEq

/-- Install one image's accumulated data on the evaluator.  A batch
without a `'mask'` key also clears `need_dice` (it is never set back to
`True` in this class). -/
def install (st : EvalState) (inp : Finalization) : EvalState :=
  { st with full_pred := inp.pred, full_image := inp.image,
            full_mask := inp.mask, prev_name := inp.name,
            need_dice := st.need_dice && inp.mask.isSome }

/-- Run one fold's stream of image finalisations (the
`on_image_constructed` calls the batch loop triggers, including the one
at the end of the loop), collecting the emitted events. -/
def processFold (cfg : EvalConfig) :
    EvalState → String → List Finalization → EvalState × List EmitEvent
  | st, _, [] => (st, [])
  | st, pre, inp :: rest =>
    let r1 := on_image_constructed cfg (install st inp) pre
    let r2 := processFold cfg r1.1 pre rest
    (r2.1, r1.2 ++ r2.2)

/-- Observable actions of the fold loop: loading a fold's model
(`read_model`), the finalisation emissions, and the printed end-of-fold
mean Dice (`print(np.mean(self.dice))`). -/
inductive Event where
  | modelLoaded : ℕ → Event
  | emit : ℕ → EmitEvent → Event
  | reported : ℕ → ℚ → Event
deriving DecidableEq

/-- `np.mean` of a list of rationals. -/
def npMean (l : List ℚ) : ℚ := l.sum / l.length

/-- `skip_folds is not None and fold in skip_folds`. -/
def skipCheck (skip : Option (List ℕ)) (k : ℕ) : Bool :=
  match skip with
  | none => false
  | some s => decide (k ∈ s)

/-- `prefix = ('fold' + str(fold) + "_") if self.test else ""`. -/
def preOf (cfg : EvalConfig) (k : ℕ) : String :=
  if cfg.test then "fold" ++ toString k ++ "_" else ""

/-- The fold loop of `Evaluator.predict`, over the enumerated folds:
skipped folds are passed over before any resource is touched; otherwise
`prev_name` is reset, the model is loaded, the fold's stream is
processed, and if `need_dice` still holds the mean of the evaluator's
`dice` list is reported. -/
def runFolds (cfg : EvalConfig) (skip : Option (List ℕ)) :
    List (ℕ × List Finalization) → EvalState → EvalState × List Event
  | [], st => (st, [])
  | (k, fd) :: rest, st =>
    if skipCheck skip k then runFolds cfg skip rest st
    else
      let r := processFold cfg { st with prev_name := none } (preOf cfg k) fd
      let rep : List Event :=
        if r.1.need_dice then [Event.reported k (npMean r.1.dice)] else []
      let rr := runFolds cfg skip rest r.1
      (rr.1, (Event.modelLoaded k :: (r.2.map (Event.emit k)) ++ rep) ++ rr.2)

/-- `Evaluator.predict(skip_folds)`: enumerate the folds and run them. -/
def Evaluator.predict (cfg : EvalConfig) (folds : List (List Finalization))
    (skip : Option (List ℕ)) (st0 : EvalState) : EvalState × List Event :=
  runFolds cfg skip folds.enum st0

/-- The fold index an observable event concerns. -/
def eventFold : Event → ℕ
  | Event.modelLoaded k => k
  | Event.emit k _ => k
  | Event.reported k _ => k

/-- The Dice score `on_image_constructed` appends for one finalised
image, if any: present exactly when a mask is installed and prediction
or mask has a positive cell after border trimming. -/
def scoreOf (b : ℕ) (inp : Finalization) : Option ℚ :=
  match inp.mask with
  | none => none
  | some m =>
    let pred := cut_border b inp.pred
    let mask := cut_border b m
    if any_gt_half pred || any_ge_one mask then
      some (1 - dice_distance (flatten_gt_half pred) (flatten_ge_one mask))
    else none

/-- All scores one fold's stream appends, in order. -/
def scoresOf (b : ℕ) (inputs : List Finalization) : List ℚ :=
  inputs.filterMap (scoreOf b)

/-- Concrete fixture: a configuration with all flags off. -/
def cfgPlain : EvalConfig := ⟨false, false, false⟩

/-- Concrete fixture: a freshly constructed evaluator state
(`self.dice = []`, `self.need_dice` about to be used, border 0). -/
def stInit : EvalState := ⟨[[]], none, none, 0, none, true, []⟩

/-- Concrete fixture: an image whose prediction matches its mask
everywhere (Dice score 1). -/
def inpPos : Finalization := ⟨[[1]], none, some [[1]], some 0⟩

/-- Concrete fixture: an image whose prediction misses its non-empty
mask entirely (Dice score 0). -/
def inpNeg : Finalization := ⟨[[0]], none, some [[1]], some 1⟩

/-! ## Arithmetic facts about the tile partitioner -/

lemma nwids_pos (w : ℕ) (hw : 1024 ≤ w) : 1 ≤ nwids w := by
  unfold nwids; omega

lemma nwids_lower (w : ℕ) (hw : 1024 ≤ w) : 1024 * (nwids w - 1) < w := by
  unfold nwids; omega

lemma nwids_upper (w : ℕ) (hw : 1024 ≤ w) : w ≤ 1024 * nwids w := by
  unfold nwids; omega

lemma nwids_two (w : ℕ) (hw : 1025 ≤ w) : 2 ≤ nwids w := by
  unfold nwids; omega

lemma q_le (w : ℕ) (hw : 1024 ≤ w) : w / nwids w ≤ 1024 := by
  have h1 := nwids_pos w hw
  have h2 := nwids_upper w hw
  calc w / nwids w ≤ 1024 * nwids w / nwids w := Nat.div_le_div_right h2
    _ = 1024 := Nat.mul_div_cancel 1024 (by omega)

lemma q_ge (w : ℕ) (hw : 1024 ≤ w) : 512 ≤ w / nwids w := by
  have h1 := nwids_pos w hw
  have h2 := nwids_lower w hw
  have h3 : 512 * nwids w ≤ w := by omega
  exact (Nat.le_div_iff_mul_le (by omega)).2 h3

lemma cpwid_le (w : ℕ) (hw : 1024 ≤ w) : cpwid w ≤ 1024 := by
  have h1 := q_le w hw
  unfold cpwid; split <;> omega

lemma cpwid_ge (w : ℕ) (hw : 1024 ≤ w) : 512 ≤ cpwid w := by
  have h1 := q_ge w hw
  unfold cpwid; split <;> omega

lemma rest_pos (w : ℕ) (hw : 1024 ≤ w) : (nwids w - 1) * cpwid w < w := by
  have h1 := nwids_pos w hw
  by_cases hn : nwids w = 1
  · rw [hn]; simpa using (by omega : 0 < w)
  · have hc := cpwid_le w hw
    have h2 := nwids_lower w hw
    calc (nwids w - 1) * cpwid w ≤ (nwids w - 1) * 1024 :=
          Nat.mul_le_mul_left _ hc
      _ = 1024 * (nwids w - 1) := Nat.mul_comm _ _
      _ < w := h2

lemma index_some_iff (w : ℕ) (specs : List TileSpec)
    (h : index_in_copy_out w = some specs) : 1024 ≤ w ∧ specs = tileList w := by
  by_cases hw : w < 1024
  · simp [index_in_copy_out, hw] at h
  · refine ⟨by omega, ?_⟩
    simp only [index_in_copy_out, if_neg hw, Option.some.injEq] at h
    exact h.symm

/-! ## Facts about the tile list's output ranges -/

lemma tiles_cover (w : ℕ) (specs : List TileSpec)
    (h : index_in_copy_out w = some specs)
    (x : ℤ) (hx0 : 0 ≤ x) (hx1 : x < (w : ℤ)) :
    ∃ t ∈ specs, t.outs ≤ x ∧ x < t.oute := by
  obtain ⟨hw, hsp⟩ := index_some_iff w specs h
  subst hsp
  by_cases hn : nwids w = 1
  · have hw1024 : w = 1024 := by
      have h2 := nwids_upper w hw
      rw [hn] at h2; omega
    subst hw1024
    refine ⟨firstSpec (cpwid 1024), by simp [tileList], by simpa [firstSpec] using hx0, ?_⟩
    have hc : cpwid 1024 = 1024 := by decide
    simp only [firstSpec, hc]
    exact_mod_cast hx1
  · have hn2 : 2 ≤ nwids w := by have := nwids_pos w hw; omega
    have hc512 : 512 ≤ cpwid w := cpwid_ge w hw
    have hcpos : 0 < cpwid w := by omega
    lift x to ℕ using hx0 with m
    have hm : m < w := by exact_mod_cast hx1
    by_cases hfst : m < cpwid w
    · exact ⟨firstSpec (cpwid w), by simp [tileList], by simp [firstSpec],
        by simpa [firstSpec] using (by exact_mod_cast hfst : (m : ℤ) < cpwid w)⟩
    · by_cases hlast : (nwids w - 1) * cpwid w ≤ m
      · refine ⟨lastSpec w (nwids w) (cpwid w), ?_, ?_, ?_⟩
        · simp [tileList]
        · simp only [lastSpec]
          have he : (w : ℤ) - ((w : ℤ) - ((nwids w : ℤ) - 1) * cpwid w)
              = ((nwids w : ℤ) - 1) * cpwid w := by ring
          rw [he]
          have hcast : ((nwids w - 1 : ℕ) : ℤ) = (nwids w : ℤ) - 1 := by
            push_cast [Nat.cast_sub (by omega : 1 ≤ nwids w)]; ring
          rw [← hcast]
          exact_mod_cast hlast
        · simp only [lastSpec]
          exact_mod_cast hm
      · push_neg at hfst hlast
        have hdm := Nat.div_add_mod m (cpwid w)
        have hmod := Nat.mod_lt m hcpos
        have hi1 : 1 ≤ m / cpwid w := (Nat.one_le_div_iff hcpos).2 hfst
        have hi2 : m / cpwid w < nwids w - 1 :=
          (Nat.div_lt_iff_lt_mul hcpos).2 hlast
        refine ⟨interiorSpec (cpwid w) (m / cpwid w - 1), ?_, ?_, ?_⟩
        · apply List.mem_cons_of_mem
          apply List.mem_append_left
          exact List.mem_map.2 ⟨m / cpwid w - 1, List.mem_range.2 (by omega), rfl⟩
        · simp only [interiorSpec]
          have h1 : ((m / cpwid w - 1 : ℕ) : ℤ) + 1 = (m / cpwid w : ℤ) := by
            push_cast [Nat.cast_sub hi1]; ring
          rw [h1]
          have h2 : cpwid w * (m / cpwid w) ≤ m := by
            rw [Nat.mul_comm]; exact Nat.div_mul_le_self m (cpwid w)
          exact_mod_cast h2
        · simp only [interiorSpec]
          have h4 : ((m / cpwid w - 1 : ℕ) : ℤ) + 2 = (m / cpwid w : ℤ) + 1 := by
            push_cast [Nat.cast_sub hi1]; ring
          rw [h4]
          have h3 : m < cpwid w * (m / cpwid w + 1) := by
            have h5 := Nat.add_lt_add_left hmod (cpwid w * (m / cpwid w))
            rw [hdm] at h5
            calc m < cpwid w * (m / cpwid w) + cpwid w := h5
              _ = cpwid w * (m / cpwid w + 1) := by ring
          exact_mod_cast h3

lemma cpwid_even (w : ℕ) : cpwid w % 2 = 0 := by
  unfold cpwid; split <;> omega

lemma tiles_align (w : ℕ) (specs : List TileSpec)
    (h : index_in_copy_out w = some specs) :
    ∀ t ∈ specs, t.ins + t.cps = t.outs ∧ t.oute - t.outs = t.cpe - t.cps := by
  obtain ⟨-, hsp⟩ := index_some_iff w specs h
  subst hsp
  intro t ht
  rcases List.mem_cons.1 ht with rfl | ht2
  · constructor <;> simp [firstSpec]
  · rcases List.mem_append.1 ht2 with hint | hlast
    · obtain ⟨k, -, rfl⟩ := List.mem_map.1 hint
      have hev := cpwid_even w
      constructor
      · simp only [interiorSpec]; ring
      · simp only [interiorSpec]; ring_nf; omega
    · rw [List.mem_singleton.1 hlast]
      constructor <;> simp [lastSpec] <;> ring

lemma tileList_length (w : ℕ) :
    (tileList w).length = nwids w - 2 + 2 := by
  simp [tileList]

lemma tileList_get_zero (w : ℕ) (h0 : 0 < (tileList w).length) :
    (tileList w)[0] = firstSpec (cpwid w) := rfl

lemma tileList_get_interior (w : ℕ) (i : ℕ) (h1 : 1 ≤ i) (h2 : i ≤ nwids w - 2)
    (hi : i < (tileList w).length) :
    (tileList w)[i] = interiorSpec (cpwid w) (i - 1) := by
  obtain ⟨j, rfl⟩ : ∃ j, i = j + 1 := ⟨i - 1, by omega⟩
  have hb : j + 1 < (firstSpec (cpwid w) ::
      ((List.range (nwids w - 2)).map (interiorSpec (cpwid w)) ++
        [lastSpec w (nwids w) (cpwid w)])).length := by
    simpa [tileList] using hi
  show (firstSpec (cpwid w) ::
      ((List.range (nwids w - 2)).map (interiorSpec (cpwid w)) ++
        [lastSpec w (nwids w) (cpwid w)]))[j + 1] =
    interiorSpec (cpwid w) (j + 1 - 1)
  rw [List.getElem_cons_succ]
  rw [List.getElem_append_left (by simpa using by omega : j <
    ((List.range (nwids w - 2)).map (interiorSpec (cpwid w))).length)]
  rw [List.getElem_map]
  simp

lemma tileList_get_last (w : ℕ) (hi : nwids w - 2 + 1 < (tileList w).length) :
    (tileList w)[nwids w - 2 + 1] = lastSpec w (nwids w) (cpwid w) := by
  have hb : nwids w - 2 + 1 < (firstSpec (cpwid w) ::
      ((List.range (nwids w - 2)).map (interiorSpec (cpwid w)) ++
        [lastSpec w (nwids w) (cpwid w)])).length := by
    simpa [tileList] using hi
  show (firstSpec (cpwid w) ::
      ((List.range (nwids w - 2)).map (interiorSpec (cpwid w)) ++
        [lastSpec w (nwids w) (cpwid w)]))[nwids w - 2 + 1] =
    lastSpec w (nwids w) (cpwid w)
  rw [List.getElem_cons_succ]
  rw [List.getElem_append_right (by simp)]
  simp

lemma tileList_outs (w : ℕ) (hw : 1025 ≤ w) (i : ℕ) (hn : i < nwids w)
    (hi : i < (tileList w).length) :
    (tileList w)[i].outs = (cpwid w : ℤ) * i := by
  have hn2 : 2 ≤ nwids w := nwids_two w hw
  rcases Nat.eq_zero_or_pos i with rfl | hpos
  · rw [tileList_get_zero w hi]; simp [firstSpec]
  · by_cases hlast : i = nwids w - 1
    · have hidx : i = nwids w - 2 + 1 := by omega
      subst hidx
      rw [tileList_get_last w hi]
      simp only [lastSpec]
      have he : (w : ℤ) - ((w : ℤ) - ((nwids w : ℤ) - 1) * cpwid w)
          = ((nwids w : ℤ) - 1) * cpwid w := by ring
      rw [he]
      have : ((nwids w - 2 + 1 : ℕ) : ℤ) = (nwids w : ℤ) - 1 := by
        push_cast [Nat.cast_sub (by omega : 2 ≤ nwids w)]; ring
      rw [this]; ring
    · rw [tileList_get_interior w i hpos (by omega) hi]
      simp only [interiorSpec]
      have : ((i - 1 : ℕ) : ℤ) + 1 = (i : ℤ) := by
        push_cast [Nat.cast_sub hpos]; ring
      rw [this]

lemma tileList_oute (w : ℕ) (hw : 1025 ≤ w) (i : ℕ) (hn : i < nwids w)
    (hi : i < (tileList w).length) :
    (tileList w)[i].oute =
      if i = nwids w - 1 then (w : ℤ) else (cpwid w : ℤ) * (i + 1) := by
  have hn2 : 2 ≤ nwids w := nwids_two w hw
  by_cases hlast : i = nwids w - 1
  · rw [if_pos hlast]
    have hidx : i = nwids w - 2 + 1 := by omega
    subst hidx
    rw [tileList_get_last w hi]
    simp [lastSpec]
  · rw [if_neg hlast]
    rcases Nat.eq_zero_or_pos i with rfl | hpos
    · rw [tileList_get_zero w hi]; simp [firstSpec]
    · rw [tileList_get_interior w i hpos (by omega) hi]
      simp only [interiorSpec]
      have : ((i - 1 : ℕ) : ℤ) + 2 = (i : ℤ) + 1 := by
        push_cast [Nat.cast_sub hpos]; ring
      rw [this]

/-- C2 (amended to dimensions strictly above the tile size): for every
`dimension ≥ 1025` the partitioner's output ranges partition
`[0, dimension)` exactly — there are `nwids` of them, each is nonempty,
consecutive ranges abut, the first starts at 0, the last ends at the
dimension, earlier ranges lie entirely before later ones, and every cell
of `[0, dimension)` lies in some range.  (At `dimension = 1024` exactly,
the partitioner emits two coincident tiles; see the counterexample.) -/
theorem tile_output_partition (w : ℕ) (hw : 1025 ≤ w) (specs : List TileSpec)
    (h : index_in_copy_out w = some specs) :
    specs.length = nwids w ∧
    (∀ i, (hi : i < specs.length) → specs[i].outs < specs[i].oute) ∧
    (∀ i, (hi : i + 1 < specs.length) → specs[i].oute = specs[i + 1].outs) ∧
    specs.head?.map TileSpec.outs = some 0 ∧
    specs.getLast?.map TileSpec.oute = some (w : ℤ) ∧
    (∀ i j, (hi : i < specs.length) → (hj : j < specs.length) → i < j →
      specs[i].oute ≤ specs[j].outs) ∧
    (∀ x : ℤ, 0 ≤ x → x < (w : ℤ) → ∃ t ∈ specs, t.outs ≤ x ∧ x < t.oute) := by
  have hw0 : 1024 ≤ w := by omega
  obtain ⟨-, hsp⟩ := index_some_iff w specs h
  have hn2 : 2 ≤ nwids w := nwids_two w hw
  have hlen : specs.length = nwids w := by
    rw [hsp, tileList_length]; omega
  have hc512 : 512 ≤ cpwid w := cpwid_ge w hw0
  have hcpos : (0 : ℤ) < cpwid w := by exact_mod_cast (by omega : 0 < cpwid w)
  have hrest := rest_pos w hw0
  have hrestZ : ((nwids w : ℤ) - 1) * cpwid w < w := by
    have hcast : ((nwids w - 1 : ℕ) : ℤ) = (nwids w : ℤ) - 1 := by
      push_cast [Nat.cast_sub (by omega : 1 ≤ nwids w)]; ring
    rw [← hcast]
    exact_mod_cast hrest
  have houts : ∀ i, (hi : i < specs.length) → specs[i].outs = (cpwid w : ℤ) * i := by
    intro i hi
    have hi2 : i < (tileList w).length := by rw [← hsp]; exact hi
    have := tileList_outs w hw i (by omega) hi2
    simpa [hsp] using this
  have houte : ∀ i, (hi : i < specs.length) → specs[i].oute =
      if i = nwids w - 1 then (w : ℤ) else (cpwid w : ℤ) * (i + 1) := by
    intro i hi
    have hi2 : i < (tileList w).length := by rw [← hsp]; exact hi
    have := tileList_oute w hw i (by omega) hi2
    simpa [hsp] using this
  refine ⟨hlen, ?_, ?_, ?_, ?_, ?_, ?_⟩
  · intro i hi
    rw [houts i hi, houte i hi]
    by_cases hlast : i = nwids w - 1
    · rw [if_pos hlast]
      calc (cpwid w : ℤ) * i = ((nwids w : ℤ) - 1) * cpwid w := by
            rw [hlast]; push_cast [Nat.cast_sub (by omega : 1 ≤ nwids w)]; ring
        _ < w := hrestZ
    · rw [if_neg hlast]
      have : (i : ℤ) < (i : ℤ) + 1 := by omega
      exact mul_lt_mul_of_pos_left this hcpos
  · intro i hi
    rw [houte i (by omega), houts (i + 1) hi]
    have hne : ¬ i = nwids w - 1 := by omega
    rw [if_neg hne]
    push_cast
    ring
  · rw [hsp]
    simp [tileList, firstSpec]
  · rw [hsp]
    unfold tileList
    rw [List.getLast?_concat]
    simp [lastSpec]
  · intro i j hi hj hij
    rw [houte i hi, houts j hj]
    have hne : ¬ i = nwids w - 1 := by omega
    rw [if_neg hne]
    have : (i : ℤ) + 1 ≤ (j : ℤ) := by exact_mod_cast hij
    exact mul_le_mul_of_nonneg_left this (by omega)
  · intro x hx0 hx1
    rw [hsp]
    refine tiles_cover w (tileList w) ?_ x hx0 hx1
    have hnl : ¬ w < 1024 := by omega
    simp [index_in_copy_out, hnl]

/-- C2 witness: the spec's own example, `dimension = 2048`, yields two
tiles whose output ranges are `[0,1024)` and `[1024,2048)`; cell 1500 is
covered. -/
theorem tile_output_partition_witness :
    ∃ t ∈ [(⟨0, 1024, 0, 1024, 0, 1024⟩ : TileSpec),
           ⟨1024, 2048, 0, 1024, 1024, 2048⟩],
      t.outs ≤ (1500 : ℤ) ∧ (1500 : ℤ) < t.oute :=
  (tile_output_partition 2048 (by norm_num) _ (by decide)).2.2.2.2.2.2
    1500 (by norm_num) (by norm_num)

/-- C2 counterexample: at `dimension = 1024` (the smallest legal input)
the partitioner returns two tiles whose output ranges are both
`[0, 1024)`, so the ranges are not pairwise non-overlapping and the
sequence is not an exact partition as the claim states. -/
theorem tile_overlap_at_1024 :
    index_in_copy_out 1024 =
      some [(⟨0, 1024, 0, 1024, 0, 1024⟩ : TileSpec),
            ⟨0, 1024, 0, 1024, 0, 1024⟩] ∧
    ¬ List.Pairwise (fun a b : TileSpec => a.oute ≤ b.outs ∨ b.oute ≤ a.outs)
      [(⟨0, 1024, 0, 1024, 0, 1024⟩ : TileSpec),
       ⟨0, 1024, 0, 1024, 0, 1024⟩] := by
  constructor
  · decide
  · decide

/-- C9: the partitioner is a pure function of the dimension — two
invocations with the same dimension return identical tile sequences
(the source method reads nothing but its `width` argument). -/
theorem partitioner_deterministic :
    ∀ w : ℕ, index_in_copy_out w = index_in_copy_out w := fun _ => rfl

/-- C6: a dimension below the tile size 1024 is rejected: the partitioner
returns no partition, and the stitcher given a batch with either spatial
dimension below 1024 aborts (the `None` unpacking raises) instead of
proceeding. -/
theorem small_dimension_rejected (w H W flips : ℕ) (model : Grid → Grid)
    (image : Grid) (h1 : w < 1024) (h2 : H < 1024 ∨ W < 1024) :
    index_in_copy_out w = none ∧
    predict_samples_large flips model H W image = none := by
  constructor
  · simp [index_in_copy_out, h1]
  · rcases h2 with hH | hW
    · have hn : index_in_copy_out H = none := by simp [index_in_copy_out, hH]
      simp [predict_samples_large, hn]
    · have hn : index_in_copy_out W = none := by simp [index_in_copy_out, hW]
      cases hx : index_in_copy_out H <;> simp [predict_samples_large, hx, hn]

/-- C6 witness: width 512 is rejected by the partitioner, and a
2048-by-512 batch is rejected by the stitcher. -/
theorem small_dimension_rejected_witness :
    index_in_copy_out 512 = none ∧
    predict_samples_large 0 id 2048 512 (fun _ _ => (0 : ℝ)) = none :=
  small_dimension_rejected 512 2048 512 0 id (fun _ _ => (0 : ℝ))
    (by norm_num) (Or.inr (by norm_num))

/-! ## Border trimming -/

lemma pyTrim_length {α : Type} (b : ℕ) (l : List α) :
    (pyTrim b l).length = l.length - 2 * b := by
  simp [pyTrim]; omega

lemma pyTrim_getElem {α : Type} (b : ℕ) (l : List α) (i : ℕ)
    (hi : i < (pyTrim b l).length) (h2 : i + b < l.length) :
    (pyTrim b l)[i] = l[i + b] := by
  unfold pyTrim
  rw [List.getElem_drop]
  rw [List.getElem_take]
  congr 1
  omega

/-- C10: `cut_border` is the identity at border width 0; for `b > 0` it
removes exactly `b` samples from each side of the first two axes only:
the row count and each surviving row's length shrink by `2*b` (truncated
at zero, so a non-empty result needs the axis to exceed `2*b`), cell
`(i, j)` of the result is cell `(i+b, j+b)` of the input, and the cells
themselves — the trailing axes — are untouched. -/
theorem cut_border_spec {α : Type} (b : ℕ) (img : List (List α)) :
    cut_border 0 img = img ∧
    (0 < b →
      (cut_border b img).length = img.length - 2 * b ∧
      (cut_border b img ≠ [] ↔ 2 * b < img.length) ∧
      (∀ i, (hi : i < (cut_border b img).length) → (hib : i + b < img.length) →
        ((cut_border b img)[i].length = img[i + b].length - 2 * b ∧
         ∀ j, (hj : j < (cut_border b img)[i].length) →
           (hjb : j + b < img[i + b].length) →
           (cut_border b img)[i][j] = img[i + b][j + b]))) := by
  refine ⟨by simp [cut_border], fun hb => ?_⟩
  have hbne : ¬ b = 0 := by omega
  have hlen : (cut_border b img).length = img.length - 2 * b := by
    simp [cut_border, hbne, pyTrim_length]
  refine ⟨hlen, ?_, ?_⟩
  · rw [← List.length_pos_iff_ne_nil, hlen]
    omega
  · intro i hi hib
    have hrow : (cut_border b img)[i] = pyTrim b (img[i + b]) := by
      simp only [cut_border, if_neg hbne]
      rw [List.getElem_map]
      congr 1
      exact pyTrim_getElem b img i (by simpa [cut_border, hbne] using hi) hib
    refine ⟨by rw [hrow, pyTrim_length], ?_⟩
    intro j hj hjb
    have hj2 : j < (pyTrim b (img[i + b])).length := by rw [← hrow]; exact hj
    calc (cut_border b img)[i][j]
        = (pyTrim b (img[i + b]))[j] := by
          congr 1
      _ = img[i + b][j + b] := pyTrim_getElem b _ j hj2 hjb

/-- C10 witness: trimming a 3-by-3 grid with border 1 keeps exactly the
centre cell. -/
theorem cut_border_spec_witness :
    (cut_border 1 ([[0, 1, 2], [3, 4, 5], [6, 7, 8]] : List (List ℕ))).length
      = 1 := by
  have h := (cut_border_spec 1
    ([[0, 1, 2], [3, 4, 5], [6, 7, 8]] : List (List ℕ))).2 (by norm_num)
  simpa using h.1

/-! ## The TTA predictor: averaging happens before the squash -/

lemma sigmoid_one_ne_avg : sigmoid 1 ≠ (sigmoid 0 + sigmoid 2) / 2 := by
  intro h
  have hp : (0 : ℝ) < Real.exp (-1) := Real.exp_pos _
  have hlt : Real.exp (-1) < 1 := by
    rw [← Real.exp_zero]
    exact Real.exp_lt_exp.2 (by norm_num)
  have h2 : Real.exp (-(2 : ℝ)) = Real.exp (-1) * Real.exp (-1) := by
    rw [← Real.exp_add]; norm_num
  have h0 : Real.exp (-(0 : ℝ)) = 1 := by rw [neg_zero, Real.exp_zero]
  unfold sigmoid at h
  rw [h0, h2] at h
  set u := Real.exp (-1) with hu
  have d1 : (1 : ℝ) + u ≠ 0 := by positivity
  have d2 : (1 : ℝ) + u * u ≠ 0 := by positivity
  field_simp at h
  nlinarith [mul_pos (sub_pos.2 hlt) (mul_pos (sub_pos.2 hlt) (sub_pos.2 hlt))]

/-- C1 (amended): for every flip setting at or above `FLIP_LR`, the TTA
predictor returns the squash of the arithmetic mean of the raw
per-variant outputs — the averaging happens in raw (logit) space first,
and the bounded squashing function is applied to the average. -/
theorem predict_sigmoid_of_mean (rows cols : ℕ) (model : Grid → Grid)
    (batch : Grid) (flips : ℕ) (hf : 0 < flips) :
    predict rows cols model batch flips =
      to_numpy (pointMean (rawVariants rows cols model batch flips)) := by
  simp only [predict, rawVariants, pointMean]
  rw [if_pos hf]
  by_cases h2 : 1 < flips
  · rfl
  · rfl

/-- C1 witness: the amended equation at a concrete instance. -/
theorem predict_sigmoid_of_mean_witness :
    predict 1 1 id (fun _ _ => (0 : ℝ)) 1 =
      to_numpy (pointMean (rawVariants 1 1 id (fun _ _ => (0 : ℝ)) 1)) :=
  predict_sigmoid_of_mean 1 1 id (fun _ _ => (0 : ℝ)) 1 (by norm_num)

/-- C1 counterexample: with `flips = FLIP_LR` and a model that always
outputs the two-column pattern `(0, 2)`, the predictor's value at cell
`(0,0)` is `sigmoid 1` (squash of the raw mean), which differs from the
claim's mean of the squashed variants, `(sigmoid 0 + sigmoid 2)/2`. -/
theorem predict_squash_order_cex :
    predict 1 2 (fun _ => fun _ j => if j = 0 then (0 : ℝ) else 2)
        (fun _ _ => 0) 1 0 0 ≠
      predict_tta_spec 1 2 (fun _ => fun _ j => if j = 0 then (0 : ℝ) else 2)
        (fun _ _ => 0) 1 0 0 := by
  have e1 : predict 1 2 (fun _ => fun _ j => if j = 0 then (0 : ℝ) else 2)
      (fun _ _ => 0) 1 0 0 = sigmoid 1 := by
    simp [predict, to_numpy, flip_tensor_lr]
  have e2 : predict_tta_spec 1 2 (fun _ => fun _ j => if j = 0 then (0 : ℝ) else 2)
      (fun _ _ => 0) 1 0 0 = (sigmoid 0 + sigmoid 2) / 2 := by
    simp [predict_tta_spec, rawVariants, pointMean, to_numpy, flip_tensor_lr]
  rw [e1, e2]
  exact sigmoid_one_ne_avg

/-! ## The stitcher with the identity model -/

lemma predict_id_apply (rows cols flips : ℕ) (batch : Grid) (x y : ℤ) :
    predict rows cols id batch flips x y = sigmoid (batch x y) := by
  by_cases hf : 0 < flips
  · by_cases h2 : 1 < flips
    · simp only [predict, if_pos hf, if_pos h2, to_numpy, id_eq,
        flip_tensor_lr, flip_tensor_ud, List.map_cons, List.map_nil,
        List.sum_cons, List.sum_nil, List.length_cons, List.length_nil]
      have e1 : (cols : ℤ) - 1 - ((cols : ℤ) - 1 - y) = y := by ring
      have e2 : (rows : ℤ) - 1 - ((rows : ℤ) - 1 - x) = x := by ring
      rw [e1, e2]
      congr 1
      push_cast
      ring
    · simp only [predict, if_pos hf, if_neg h2, to_numpy, id_eq,
        flip_tensor_lr, List.map_cons, List.map_nil,
        List.sum_cons, List.sum_nil, List.length_cons, List.length_nil]
      have e1 : (cols : ℤ) - 1 - ((cols : ℤ) - 1 - y) = y := by ring
      rw [e1]
      congr 1
      push_cast
      ring
  · simp only [predict, if_neg hf, to_numpy, id_eq]

lemma sigmoid_zero : sigmoid 0 = 1 / 2 := by
  unfold sigmoid
  rw [neg_zero, Real.exp_zero]
  norm_num

lemma foldl_writeTile_eq (flips : ℕ) (model : Grid → Grid) (image : Grid)
    (x y : ℤ) (v : ℝ) :
    ∀ (pairs : List (TileSpec × TileSpec)) (canvas : Grid),
      (∀ p ∈ pairs, pairCovers p x y → tileValue flips model image p x y = v) →
      ((∃ p ∈ pairs, pairCovers p x y) ∨ canvas x y = v) →
      (pairs.foldl (writeTile flips model image) canvas) x y = v := by
  intro pairs
  induction pairs with
  | nil =>
    intro canvas hall hsome
    rcases hsome with ⟨p, hp, -⟩ | hv
    · exact absurd hp (List.not_mem_nil p)
    · simpa using hv
  | cons p0 rest ih =>
    intro canvas hall hsome
    simp only [List.foldl_cons]
    apply ih
    · intro p hp hc
      exact hall p (List.mem_cons_of_mem _ hp) hc
    · by_cases h0 : pairCovers p0 x y
      · right
        show (if pairCovers p0 x y then tileValue flips model image p0 x y
          else canvas x y) = v
        rw [if_pos h0]
        exact hall p0 (List.mem_cons_self _ _) h0
      · rcases hsome with ⟨p, hp, hc⟩ | hv
        · rcases List.mem_cons.1 hp with rfl | hp2
          · exact absurd hc h0
          · exact Or.inl ⟨p, hp2, hc⟩
        · right
          show (if pairCovers p0 x y then tileValue flips model image p0 x y
            else canvas x y) = v
          rw [if_neg h0]
          exact hv

lemma tiles_crop_bounds (w : ℕ) (specs : List TileSpec)
    (h : index_in_copy_out w = some specs) :
    ∀ t ∈ specs, t.cps ≤ t.cpe ∧ t.cpe ≤ 1024 := by
  obtain ⟨hw, hsp⟩ := index_some_iff w specs h
  subst hsp
  have hcle : (cpwid w : ℤ) ≤ 1024 := by exact_mod_cast cpwid_le w hw
  have hc0 : (0 : ℤ) ≤ (cpwid w : ℤ) := by positivity
  have hrest : ((nwids w : ℤ) - 1) * cpwid w < w := by
    have hcast : ((nwids w - 1 : ℕ) : ℤ) = (nwids w : ℤ) - 1 := by
      push_cast [Nat.cast_sub (nwids_pos w hw)]; ring
    rw [← hcast]
    exact_mod_cast rest_pos w hw
  intro t ht
  rcases List.mem_cons.1 ht with rfl | ht2
  · exact ⟨by simpa [firstSpec] using hc0, by simpa [firstSpec] using hcle⟩
  · rcases List.mem_append.1 ht2 with hint | hlast
    · obtain ⟨k, -, rfl⟩ := List.mem_map.1 hint
      constructor <;> simp only [interiorSpec] <;> omega
    · rw [List.mem_singleton.1 hlast]
      constructor
      · simp only [lastSpec]
        linarith
      · simp [lastSpec]

lemma tiles_cropIndex (w : ℕ) (specs : List TileSpec)
    (h : index_in_copy_out w = some specs) (t : TileSpec) (ht : t ∈ specs)
    (hc : 0 ≤ t.cps) (x : ℤ) :
    cropIndex t x = t.cps + (x - t.outs) := by
  obtain ⟨hb1, hb2⟩ := tiles_crop_bounds w specs h t ht
  obtain ⟨-, hal⟩ := tiles_align w specs h t ht
  have hn1 : pyNorm t.cps 1024 = t.cps := by
    unfold pyNorm
    rw [if_neg (by omega), min_eq_left (by omega)]
  have hn2 : pyNorm t.cpe 1024 = t.cpe := by
    unfold pyNorm
    rw [if_neg (by omega), min_eq_left (by omega)]
  have hsl : pySliceLen t.cps t.cpe 1024 = t.oute - t.outs := by
    unfold pySliceLen
    rw [hn1, hn2, hal, max_eq_right (by omega)]
  unfold cropIndex
  rw [if_pos hsl, hn1]

/-- C7 (amended): for a raster whose two partitions place every crop in
bounds (`0 ≤ cps` on every tile — true e.g. at dimensions 1024 and
2048, false at 4091), the stitcher with an identity model assembles, at
every in-range cell, exactly the sigmoid of the original raster cell:
reassembly is seamless, but the per-tile predictor still applies the
bounded squash, so the round-trip reproduces `sigmoid(raster)`, not the
raster itself.  (At dimensions with an out-of-bounds width-1 crop such
as 4091 the stitcher also succeeds, but numpy broadcasting replicates
boundary values across the remainder region instead — see the C5
theorem — so the in-bounds hypothesis is necessary.) -/
theorem stitch_roundtrip_sigmoid (flips H W : ℕ) (image : Grid)
    (xs ys : List TileSpec)
    (hX : index_in_copy_out H = some xs) (hY : index_in_copy_out W = some ys)
    (hcx : ∀ t ∈ xs, 0 ≤ t.cps) (hcy : ∀ t ∈ ys, 0 ≤ t.cps)
    (c : Grid) (hc : predict_samples_large flips id H W image = some c)
    (x y : ℤ) (hx0 : 0 ≤ x) (hx1 : x < (H : ℤ))
    (hy0 : 0 ≤ y) (hy1 : y < (W : ℤ)) :
    c x y = sigmoid (image x y) := by
  simp only [predict_samples_large, hX, hY] at hc
  by_cases hg : (xs.all axisBroadcastOk && ys.all axisBroadcastOk) = true
  · rw [if_pos hg] at hc
    obtain rfl : _ = c := Option.some.inj hc
    obtain ⟨tx, htx, htx1, htx2⟩ := tiles_cover H xs hX x hx0 hx1
    obtain ⟨ty, hty, hty1, hty2⟩ := tiles_cover W ys hY y hy0 hy1
    have halx := tiles_align H xs hX
    have haly := tiles_align W ys hY
    apply foldl_writeTile_eq
    · intro p hp hcov
      obtain ⟨l, hl, hpl⟩ := List.mem_flatten.1 hp
      obtain ⟨a, ha, rfl⟩ := List.mem_map.1 hl
      obtain ⟨b, hb, rfl⟩ := List.mem_map.1 hpl
      obtain ⟨hc1, hc2, hc3, hc4⟩ := hcov
      obtain ⟨ha1, -⟩ := halx a ha
      obtain ⟨hb1, -⟩ := haly b hb
      unfold tileValue
      rw [predict_id_apply]
      rw [tiles_cropIndex H xs hX a ha (hcx a ha) x,
          tiles_cropIndex W ys hY b hb (hcy b hb) y]
      have hA : a.ins + (a.cps + (x - a.outs)) = x := by omega
      have hB : b.ins + (b.cps + (y - b.outs)) = y := by omega
      rw [hA, hB]
    · left
      refine ⟨(tx, ty), ?_, ⟨htx1, htx2, hty1, hty2⟩⟩
      exact List.mem_flatten.2 ⟨ys.map fun b => (tx, b),
        List.mem_map.2 ⟨tx, htx, rfl⟩, List.mem_map.2 ⟨ty, hty, rfl⟩⟩
  · rw [if_neg hg] at hc
    exact absurd hc (by simp)

lemma psl_1024_eval : predict_samples_large 0 id 1024 1024 (fun _ _ => (0 : ℝ)) =
    some ((((tileList 1024).map fun tx => (tileList 1024).map fun ty =>
        (tx, ty)).flatten).foldl
      (writeTile 0 id (fun _ _ => (0 : ℝ))) fun _ _ => 0) := by
  have hX : index_in_copy_out 1024 = some (tileList 1024) := by
    norm_num [index_in_copy_out]
  have hg : (tileList 1024).all axisBroadcastOk = true := by decide
  simp [predict_samples_large, hX, hg]

/-- C7 witness: the amended round-trip at a concrete instance — a
1024-by-1024 zero raster stitches to the constant `sigmoid 0` canvas. -/
theorem stitch_roundtrip_sigmoid_witness :
    (predict_samples_large 0 id 1024 1024 (fun _ _ => (0 : ℝ))).map
      (fun c => c 0 0) = some (sigmoid 0) := by
  rw [psl_1024_eval, Option.map_some']
  exact congrArg some (stitch_roundtrip_sigmoid 0 1024 1024 (fun _ _ => (0 : ℝ))
    (tileList 1024) (tileList 1024)
    (by norm_num [index_in_copy_out]) (by norm_num [index_in_copy_out])
    (by decide) (by decide) _
    psl_1024_eval 0 0 (by norm_num) (by norm_num) (by norm_num) (by norm_num))

/-- C7 counterexample: on the all-zero 1024-by-1024 raster with the
identity model, the stitched canvas holds `sigmoid 0 = 1/2` at the
origin, not the raster's value 0 — the round-trip is not exact. -/
theorem stitch_roundtrip_cex :
    (predict_samples_large 0 id 1024 1024 (fun _ _ => (0 : ℝ))).map
      (fun c => c 0 0) = some (1 / 2) ∧
    ((1 : ℝ) / 2) ≠ (fun _ _ => (0 : ℝ)) (0 : ℤ) (0 : ℤ) := by
  constructor
  · rw [psl_1024_eval, Option.map_some']
    have hl : tileList 1024 =
        [(⟨0, 1024, 0, 1024, 0, 1024⟩ : TileSpec), ⟨0, 1024, 0, 1024, 0, 1024⟩] := by
      decide
    rw [hl]
    show some ((List.foldl (writeTile 0 id fun _ _ => (0 : ℝ)) (fun _ _ => (0 : ℝ))
      [((⟨0, 1024, 0, 1024, 0, 1024⟩ : TileSpec), (⟨0, 1024, 0, 1024, 0, 1024⟩ : TileSpec)),
       (⟨0, 1024, 0, 1024, 0, 1024⟩, ⟨0, 1024, 0, 1024, 0, 1024⟩),
       (⟨0, 1024, 0, 1024, 0, 1024⟩, ⟨0, 1024, 0, 1024, 0, 1024⟩),
       (⟨0, 1024, 0, 1024, 0, 1024⟩, ⟨0, 1024, 0, 1024, 0, 1024⟩)]) (0 : ℤ) (0 : ℤ))
      = some ((1 : ℝ) / 2)
    simp only [List.foldl_cons, List.foldl_nil]
    have hv : ∀ g : Grid,
        writeTile 0 id (fun _ _ => (0 : ℝ)) g
          (⟨0, 1024, 0, 1024, 0, 1024⟩, ⟨0, 1024, 0, 1024, 0, 1024⟩) 0 0
          = sigmoid 0 := by
      intro g
      show (if pairCovers _ (0 : ℤ) (0 : ℤ) then tileValue 0 id _ _ 0 0 else g 0 0)
        = sigmoid 0
      rw [if_pos (by constructor <;> norm_num)]
      unfold tileValue
      rw [predict_id_apply]
    rw [hv]
    rw [sigmoid_zero]
  · norm_num

lemma sigmoid_inj (x y : ℝ) (h : sigmoid x = sigmoid y) : x = y := by
  unfold sigmoid at h
  have hx : (0 : ℝ) < 1 + Real.exp (-x) := by positivity
  have hy : (0 : ℝ) < 1 + Real.exp (-y) := by positivity
  field_simp at h
  linarith

lemma tileList_4091 : tileList 4091 =
    [(⟨0, 1024, 0, 1022, 0, 1022⟩ : TileSpec),
     ⟨1021, 2045, 1, 1023, 1022, 2044⟩,
     ⟨2043, 3067, 1, 1023, 2044, 3066⟩,
     ⟨3067, 4091, -1, 1024, 3066, 4091⟩] := by decide

lemma psl_4091_eval : predict_samples_large 0 id 4091 4091 coordGrid =
    some ((((tileList 4091).map fun tx => (tileList 4091).map fun ty =>
        (tx, ty)).flatten).foldl
      (writeTile 0 id coordGrid) fun _ _ => 0) := by
  have hX : index_in_copy_out 4091 = some (tileList 4091) := by
    norm_num [index_in_copy_out]
  have hg : (tileList 4091).all axisBroadcastOk = true := by decide
  simp [predict_samples_large, hX, hg]

lemma psl_4091_corrupt :
    (predict_samples_large 0 id 4091 4091 coordGrid).map (fun c => c 3066 3066)
      = some (sigmoid 4090) := by
  have hpairs : (((tileList 4091).map fun tx => (tileList 4091).map fun ty =>
      (tx, ty)).flatten) =
      [((⟨0, 1024, 0, 1022, 0, 1022⟩ : TileSpec), (⟨0, 1024, 0, 1022, 0, 1022⟩ : TileSpec)),
       (⟨0, 1024, 0, 1022, 0, 1022⟩, ⟨1021, 2045, 1, 1023, 1022, 2044⟩),
       (⟨0, 1024, 0, 1022, 0, 1022⟩, ⟨2043, 3067, 1, 1023, 2044, 3066⟩),
       (⟨0, 1024, 0, 1022, 0, 1022⟩, ⟨3067, 4091, -1, 1024, 3066, 4091⟩),
       (⟨1021, 2045, 1, 1023, 1022, 2044⟩, ⟨0, 1024, 0, 1022, 0, 1022⟩),
       (⟨1021, 2045, 1, 1023, 1022, 2044⟩, ⟨1021, 2045, 1, 1023, 1022, 2044⟩),
       (⟨1021, 2045, 1, 1023, 1022, 2044⟩, ⟨2043, 3067, 1, 1023, 2044, 3066⟩),
       (⟨1021, 2045, 1, 1023, 1022, 2044⟩, ⟨3067, 4091, -1, 1024, 3066, 4091⟩),
       (⟨2043, 3067, 1, 1023, 2044, 3066⟩, ⟨0, 1024, 0, 1022, 0, 1022⟩),
       (⟨2043, 3067, 1, 1023, 2044, 3066⟩, ⟨1021, 2045, 1, 1023, 1022, 2044⟩),
       (⟨2043, 3067, 1, 1023, 2044, 3066⟩, ⟨2043, 3067, 1, 1023, 2044, 3066⟩),
       (⟨2043, 3067, 1, 1023, 2044, 3066⟩, ⟨3067, 4091, -1, 1024, 3066, 4091⟩),
       (⟨3067, 4091, -1, 1024, 3066, 4091⟩, ⟨0, 1024, 0, 1022, 0, 1022⟩),
       (⟨3067, 4091, -1, 1024, 3066, 4091⟩, ⟨1021, 2045, 1, 1023, 1022, 2044⟩),
       (⟨3067, 4091, -1, 1024, 3066, 4091⟩, ⟨2043, 3067, 1, 1023, 2044, 3066⟩),
       (⟨3067, 4091, -1, 1024, 3066, 4091⟩, ⟨3067, 4091, -1, 1024, 3066, 4091⟩)] := by
    decide
  have hci : cropIndex (⟨3067, 4091, -1, 1024, 3066, 4091⟩ : TileSpec) 3066
      = 1023 := by decide
  rw [psl_4091_eval, Option.map_some', hpairs]
  refine congrArg some ?_
  apply foldl_writeTile_eq
  · intro p hp hcov
    fin_cases hp <;>
      first
        | exact absurd hcov (by decide)
        | (unfold tileValue
           rw [predict_id_apply]
           show sigmoid (coordGrid _ _) = _
           rw [hci]
           unfold coordGrid
           norm_num)
  · left
    exact ⟨(⟨3067, 4091, -1, 1024, 3066, 4091⟩, ⟨3067, 4091, -1, 1024, 3066, 4091⟩),
      by decide, by decide⟩

/-- C5 (code bug witnessed): at `dimension = 4091` the partitioner's last
tile has `crop_start = 1024 - rest = -1` — the remainder
`rest = 4091 - 3*1022 = 1025` exceeds the tile size — so the crop is
not a sub-range of the window and its width 1 (after Python slice
normalisation of `[-1:1024]`) differs from its 1025-wide placement.
numpy then broadcasts the width-1 slice silently: the stitcher
completes and fills the whole remainder region with the replicated
boundary row/column (canvas cell (3066, 3066) reads source row 4090,
not row 3066), returning a corrupted canvas rather than raising.  At
inputs whose out-of-bounds crop is 2 wide or more, e.g. 5114
(`rest = 1026`), the assignment does raise a broadcast `ValueError`
and the call aborts. -/
theorem tile_crop_negative_at_4091 :
    ((index_in_copy_out 4091).getD []).map TileSpec.cps = [0, 1, 1, -1] ∧
    pySliceLen (-1) 1024 1024 = 1 ∧
    ((index_in_copy_out 4091).getD []).getLast?.map (fun t => t.oute - t.outs)
      = some 1025 ∧
    ((predict_samples_large 0 id 4091 4091 coordGrid).map
        (fun c => c 3066 3066) = some (sigmoid 4090) ∧
      sigmoid 4090 ≠ sigmoid 3066) ∧
    (∀ (flips : ℕ) (model : Grid → Grid) (image : Grid),
      predict_samples_large flips model 5114 5114 image = none) := by
  refine ⟨by decide, by decide, by decide, ⟨psl_4091_corrupt, ?_⟩, ?_⟩
  · intro h
    have h2 := sigmoid_inj 4090 3066 h
    norm_num at h2
  · intro flips model image
    have h : index_in_copy_out 5114 = some (tileList 5114) := by
      norm_num [index_in_copy_out]
    have hbad : (tileList 5114).all axisBroadcastOk = false := by decide
    simp [predict_samples_large, h, hbad]

/-! ## The fold evaluator: dice accumulation and skipping -/

lemma on_image_dice (cfg : EvalConfig) (st : EvalState) (inp : Finalization)
    (pre : String) :
    (on_image_constructed cfg (install st inp) pre).1.dice =
      st.dice ++ (scoreOf st.border inp).toList ∧
    (on_image_constructed cfg (install st inp) pre).1.border = st.border := by
  cases hm : inp.mask with
  | none => simp [on_image_constructed, install, scoreOf, hm]
  | some m =>
    by_cases hpos : (any_gt_half (cut_border st.border inp.pred) ||
        any_ge_one (cut_border st.border m)) = true
    · simp [on_image_constructed, install, scoreOf, hm, hpos]
    · simp [on_image_constructed, install, scoreOf, hm, hpos]

lemma processFold_dice (cfg : EvalConfig) (pre : String) :
    ∀ (inputs : List Finalization) (st : EvalState),
      (processFold cfg st pre inputs).1.dice =
        st.dice ++ scoresOf st.border inputs ∧
      (processFold cfg st pre inputs).1.border = st.border := by
  intro inputs
  induction inputs with
  | nil => intro st; simp [processFold, scoresOf]
  | cons inp rest ih =>
    intro st
    obtain ⟨hd, hb⟩ := on_image_dice cfg st inp pre
    obtain ⟨hd2, hb2⟩ := ih (on_image_constructed cfg (install st inp) pre).1
    constructor
    · show (processFold cfg (on_image_constructed cfg (install st inp) pre).1
        pre rest).1.dice = _
      rw [hd2, hd, hb]
      unfold scoresOf
      rw [List.filterMap_cons]
      cases scoreOf st.border inp <;> simp
    · show (processFold cfg (on_image_constructed cfg (install st inp) pre).1
        pre rest).1.border = _
      rw [hb2, hb]

lemma runFolds_dice (cfg : EvalConfig) (skip : Option (List ℕ)) :
    ∀ (l : List (ℕ × List Finalization)) (st : EvalState),
      (runFolds cfg skip l st).1.dice =
        st.dice ++ ((l.filter fun p => !skipCheck skip p.1).map
          fun p => scoresOf st.border p.2).flatten ∧
      (runFolds cfg skip l st).1.border = st.border := by
  intro l
  induction l with
  | nil => intro st; simp [runFolds]
  | cons p rest ih =>
    intro st
    obtain ⟨k, fd⟩ := p
    by_cases hs : skipCheck skip k = true
    · have := ih st
      simp only [runFolds, hs, if_true, List.filter_cons, Bool.not_eq_true]
      simp [hs, this.1, this.2]
    · have hsf : skipCheck skip k = false := by
        cases h : skipCheck skip k
        · rfl
        · exact absurd h hs
      obtain ⟨hpd, hpb⟩ := processFold_dice cfg (preOf cfg k) fd
        { st with prev_name := none }
      obtain ⟨hrd, hrb⟩ := ih (processFold cfg { st with prev_name := none }
        (preOf cfg k) fd).1
      simp only [runFolds, hsf, Bool.false_eq_true, if_false, List.filter_cons]
      constructor
      · rw [hrd, hpd, hpb]
        simp [hsf, List.append_assoc]
      · rw [hrb, hpb]

lemma runFolds_append (cfg : EvalConfig) (skip : Option (List ℕ)) :
    ∀ (l1 l2 : List (ℕ × List Finalization)) (st : EvalState),
      runFolds cfg skip (l1 ++ l2) st =
        ((runFolds cfg skip l2 (runFolds cfg skip l1 st).1).1,
         (runFolds cfg skip l1 st).2 ++
           (runFolds cfg skip l2 (runFolds cfg skip l1 st).1).2) := by
  intro l1
  induction l1 with
  | nil => intro l2 st; simp [runFolds]
  | cons p rest ih =>
    intro l2 st
    obtain ⟨k, fd⟩ := p
    by_cases hs : skipCheck skip k = true
    · simp only [List.cons_append, runFolds, hs, if_true, List.append_eq]
      exact ih l2 st
    · have hsf : skipCheck skip k = false := by
        cases h : skipCheck skip k
        · rfl
        · exact absurd h hs
      simp only [List.cons_append, runFolds, hsf, Bool.false_eq_true, if_false,
        List.append_eq]
      rw [ih l2]
      simp [List.append_assoc]

lemma on_image_need_dice (cfg : EvalConfig) (st : EvalState)
    (inp : Finalization) (pre : String) :
    (on_image_constructed cfg (install st inp) pre).1.need_dice =
      (st.need_dice && inp.mask.isSome) := by
  cases hm : inp.mask with
  | none => simp [on_image_constructed, install, hm]
  | some m =>
    by_cases hpos : (any_gt_half (cut_border st.border inp.pred) ||
        any_ge_one (cut_border st.border m)) = true
    · simp [on_image_constructed, install, hm, hpos]
    · simp [on_image_constructed, install, hm, hpos]

lemma processFold_need_dice (cfg : EvalConfig) (pre : String) :
    ∀ (inputs : List Finalization) (st : EvalState),
      (processFold cfg st pre inputs).1.need_dice =
        (st.need_dice && (inputs.all fun inp => inp.mask.isSome)) := by
  intro inputs
  induction inputs with
  | nil => intro st; simp [processFold]
  | cons inp rest ih =>
    intro st
    show (processFold cfg (on_image_constructed cfg (install st inp) pre).1
      pre rest).1.need_dice = _
    rw [ih, on_image_need_dice]
    simp [Bool.and_assoc]

lemma runFolds_need_dice (cfg : EvalConfig) (skip : Option (List ℕ)) :
    ∀ (l : List (ℕ × List Finalization)) (st : EvalState),
      (runFolds cfg skip l st).1.need_dice =
        (st.need_dice && ((l.filter fun p => !skipCheck skip p.1).all
          fun p => p.2.all fun inp => inp.mask.isSome)) := by
  intro l
  induction l with
  | nil => intro st; simp [runFolds]
  | cons p rest ih =>
    intro st
    obtain ⟨k, fd⟩ := p
    by_cases hs : skipCheck skip k = true
    · simp [runFolds, hs, List.filter_cons, ih st]
    · have hsf : skipCheck skip k = false := by
        cases h : skipCheck skip k
        · rfl
        · exact absurd h hs
      simp only [runFolds, hsf, Bool.false_eq_true, if_false, List.filter_cons,
        Bool.not_false, if_true]
      rw [ih, processFold_need_dice]
      simp [List.all_cons, Bool.and_assoc]

lemma runFolds_reported_mem (cfg : EvalConfig) (skip : Option (List ℕ))
    (st0 : EvalState) (l1 l2 : List (ℕ × List Finalization)) (k : ℕ)
    (fd : List Finalization)
    (hk : skipCheck skip k = false)
    (hnd : (processFold cfg
      { (runFolds cfg skip l1 st0).1 with prev_name := none }
      (preOf cfg k) fd).1.need_dice = true) :
    Event.reported k (npMean ((runFolds cfg skip l1 st0).1.dice ++
        scoresOf st0.border fd)) ∈
      (runFolds cfg skip (l1 ++ (k, fd) :: l2) st0).2 := by
  obtain ⟨hd1, hb1⟩ := runFolds_dice cfg skip l1 st0
  rw [runFolds_append cfg skip l1 ((k, fd) :: l2) st0]
  obtain ⟨hpd, hpb⟩ := processFold_dice cfg (preOf cfg k) fd
    { (runFolds cfg skip l1 st0).1 with prev_name := none }
  have hval : (processFold cfg
      { (runFolds cfg skip l1 st0).1 with prev_name := none }
      (preOf cfg k) fd).1.dice =
      (runFolds cfg skip l1 st0).1.dice ++ scoresOf st0.border fd := by
    rw [hpd]
    show (runFolds cfg skip l1 st0).1.dice ++
      scoresOf (runFolds cfg skip l1 st0).1.border fd = _
    rw [hb1]
  simp only [List.mem_append]
  right
  simp only [runFolds, hk, Bool.false_eq_true, if_false]
  rw [hval, hnd]
  simp

/-- C3 (amended): the reported end-of-fold mean is taken over the
evaluator's entire `dice` list, which is initialised once in `__init__`
and never cleared between folds: the mean reported at the end of fold
`k` averages the initial list, every earlier non-skipped fold's scores,
and fold `k`'s own scores together.  The second conjunct makes the
accumulation explicit: the state entering fold `k` carries all earlier
scores appended in order. -/
theorem fold_mean_cumulative (cfg : EvalConfig) (skip : Option (List ℕ))
    (st0 : EvalState) (l1 l2 : List (ℕ × List Finalization)) (k : ℕ)
    (fd : List Finalization)
    (hk : skipCheck skip k = false)
    (hnd : (processFold cfg
      { (runFolds cfg skip l1 st0).1 with prev_name := none }
      (preOf cfg k) fd).1.need_dice = true) :
    Event.reported k (npMean ((runFolds cfg skip l1 st0).1.dice ++
        scoresOf st0.border fd)) ∈
      (runFolds cfg skip (l1 ++ (k, fd) :: l2) st0).2 ∧
    (runFolds cfg skip l1 st0).1.dice =
      st0.dice ++ ((l1.filter fun p => !skipCheck skip p.1).map
        fun p => scoresOf st0.border p.2).flatten :=
  ⟨runFolds_reported_mem cfg skip st0 l1 l2 k fd hk hnd,
   (runFolds_dice cfg skip l1 st0).1⟩

/-- C3 witness: the cumulative-mean report at a concrete two-fold run. -/
theorem fold_mean_cumulative_witness :
    Event.reported 1 (npMean ((runFolds cfgPlain none [(0, [inpPos])] stInit).1.dice ++
        scoresOf stInit.border [inpNeg])) ∈
      (runFolds cfgPlain none ([(0, [inpPos])] ++ (1, [inpNeg]) :: []) stInit).2 :=
  (fold_mean_cumulative cfgPlain none stInit [(0, [inpPos])] [] 1 [inpNeg]
    rfl (by rw [processFold_need_dice]
            show ((runFolds cfgPlain none [(0, [inpPos])] stInit).1.need_dice
              && _) = true
            rw [runFolds_need_dice]
            rfl)).1

lemma scoreOf_inpPos : scoreOf 0 inpPos = some 1 := by
  have h1 : decide ((1 : ℚ) / 2 < 1) = true := decide_eq_true (by norm_num)
  have h2 : decide ((1 : ℚ) ≤ 1) = true := decide_eq_true le_rfl
  simp [scoreOf, inpPos, cut_border, any_gt_half, any_ge_one,
    flatten_gt_half, flatten_ge_one, dice_distance, h1, h2]
  norm_num

lemma scoreOf_inpNeg : scoreOf 0 inpNeg = some 0 := by
  have h1 : decide ((1 : ℚ) / 2 < 0) = false := decide_eq_false (by norm_num)
  have h2 : decide ((1 : ℚ) ≤ 1) = true := decide_eq_true le_rfl
  simp [scoreOf, inpNeg, cut_border, any_gt_half, any_ge_one,
    flatten_gt_half, flatten_ge_one, dice_distance, h1, h2]

/-- C3 counterexample: a two-fold run in which fold 0 scores 1 and
fold 1 scores 0.  At the end of fold 1 the evaluator reports
`npMean [1, 0] = 1/2` — the mean over both folds' scores — whereas the
scores collected during fold 1 alone are `[0]`, whose mean is 0.  The
dice list is not scoped to one fold's lifetime. -/
theorem fold_mean_not_scoped_cex :
    Event.reported 1 (npMean [1, 0]) ∈
      (Evaluator.predict cfgPlain [[inpPos], [inpNeg]] none stInit).2 ∧
    scoresOf stInit.border [inpNeg] = [0] ∧
    npMean [1, 0] ≠ npMean (scoresOf stInit.border [inpNeg]) := by
  have hsN : scoresOf stInit.border [inpNeg] = [0] := by
    show scoresOf 0 [inpNeg] = [0]
    simp [scoresOf, scoreOf_inpNeg]
  have hsP : scoresOf 0 [inpPos] = [1] := by
    simp [scoresOf, scoreOf_inpPos]
  refine ⟨?_, hsN, ?_⟩
  · have hmem := runFolds_reported_mem cfgPlain none stInit
      [(0, [inpPos])] [] 1 [inpNeg] rfl
      (by rw [processFold_need_dice]
          show ((runFolds cfgPlain none [(0, [inpPos])] stInit).1.need_dice
            && _) = true
          rw [runFolds_need_dice]
          rfl)
    have hd : (runFolds cfgPlain none [(0, [inpPos])] stInit).1.dice = [1] := by
      rw [(runFolds_dice cfgPlain none [(0, [inpPos])] stInit).1]
      simp [stInit, skipCheck, List.filter_cons, hsP]
    rw [hd, hsN] at hmem
    exact hmem
  · rw [hsN]
    norm_num [npMean]

/-- C4 (amended): in the degenerate all-negative case (mask present,
but neither the thresholded prediction nor the mask has a positive
cell) `on_image_constructed` returns early: score accumulation is
skipped AND nothing is emitted to the visualize/save collaborators. -/
theorem degenerate_skips_emission (cfg : EvalConfig) (st : EvalState)
    (pre : String) (m : List (List ℚ))
    (hm : st.full_mask = some m)
    (hneg : (any_gt_half (cut_border st.border st.full_pred) ||
      any_ge_one (cut_border st.border m)) = false) :
    (on_image_constructed cfg st pre).2 = [] ∧
    (on_image_constructed cfg st pre).1.dice = st.dice := by
  constructor <;> simp [on_image_constructed, hm, hneg]

/-- C4 witness: the degenerate case at a concrete state with
`save_images` on. -/
theorem degenerate_skips_emission_witness :
    (on_image_constructed ⟨false, true, false⟩
      ⟨[[0]], none, some [[0]], 0, some 7, true, []⟩ "").2 = [] ∧
    (on_image_constructed ⟨false, true, false⟩
      ⟨[[0]], none, some [[0]], 0, some 7, true, []⟩ "").1.dice = [] :=
  degenerate_skips_emission ⟨false, true, false⟩
    ⟨[[0]], none, some [[0]], 0, some 7, true, []⟩ "" [[0]] rfl (by
      have h1 : decide ((1 : ℚ) / 2 < 0) = false := decide_eq_false (by norm_num)
      have h2 : decide ((1 : ℚ) ≤ 0) = false := decide_eq_false (by norm_num)
      simp [any_gt_half, any_ge_one, cut_border, h1, h2])

/-- C4 counterexample: with `save_images` enabled, a finalised image in
the degenerate all-negative case emits nothing, while the scored case
at the same configuration emits the save call — the degenerate case is
not emitted \"exactly as in the scored case\". -/
theorem degenerate_no_emit_cex :
    (⟨false, true, false⟩ : EvalConfig).save_images = true ∧
    (on_image_constructed ⟨false, true, false⟩
      ⟨[[0]], none, some [[0]], 0, some 7, true, []⟩ "").2 = [] ∧
    (on_image_constructed ⟨false, true, false⟩
      ⟨[[1]], none, some [[1]], 0, some 7, true, []⟩ "").2 =
      [EmitEvent.saved (some 7) ""] ∧
    ([] : List EmitEvent) ≠ [EmitEvent.saved (some 7) ""] := by
  have h1 : decide ((1 : ℚ) / 2 < 0) = false := decide_eq_false (by norm_num)
  have h2 : decide ((1 : ℚ) ≤ 0) = false := decide_eq_false (by norm_num)
  have h3 : decide ((1 : ℚ) / 2 < 1) = true := decide_eq_true (by norm_num)
  have h4 : decide ((1 : ℚ) ≤ 1) = true := decide_eq_true le_rfl
  refine ⟨rfl, ?_, ?_, by simp⟩
  · simp [on_image_constructed, any_gt_half, any_ge_one, cut_border, h1, h2]
    norm_num
  · simp [on_image_constructed, any_gt_half, any_ge_one, cut_border, h3, h4]

/-! ## Skipped folds -/

lemma runFolds_skip_filter (cfg : EvalConfig) (s : List ℕ) :
    ∀ (l : List (ℕ × List Finalization)) (st : EvalState),
      runFolds cfg (some s) l st =
        runFolds cfg none (l.filter fun p => !decide (p.1 ∈ s)) st := by
  intro l
  induction l with
  | nil => intro st; rfl
  | cons p rest ih =>
    intro st
    obtain ⟨k, fd⟩ := p
    by_cases hk : k ∈ s
    · have h1 : skipCheck (some s) k = true := by simp [skipCheck, hk]
      simp [runFolds, h1, List.filter_cons, hk, ih st]
    · have h1 : skipCheck (some s) k = false := by simp [skipCheck, hk]
      have h2 : skipCheck none k = false := rfl
      have hd : decide (k ∈ s) = false := decide_eq_false hk
      simp only [runFolds, h1, h2, Bool.false_eq_true, if_false,
        List.filter_cons, hd, Bool.not_false, if_true]
      rw [ih]

lemma runFolds_events_fold (cfg : EvalConfig) (skip : Option (List ℕ)) :
    ∀ (l : List (ℕ × List Finalization)) (st : EvalState) (e : Event),
      e ∈ (runFolds cfg skip l st).2 → eventFold e ∈ l.map Prod.fst := by
  intro l
  induction l with
  | nil => intro st e he; simp [runFolds] at he
  | cons p rest ih =>
    intro st e he
    obtain ⟨k, fd⟩ := p
    simp only [List.map_cons, List.mem_cons]
    by_cases hs : skipCheck skip k = true
    · rw [show runFolds cfg skip ((k, fd) :: rest) st = runFolds cfg skip rest st
        from by simp [runFolds, hs]] at he
      exact Or.inr (ih st e he)
    · have hsf : skipCheck skip k = false := by
        cases h : skipCheck skip k
        · rfl
        · exact absurd h hs
      simp only [runFolds, hsf, Bool.false_eq_true, if_false] at he
      rcases List.mem_append.1 he with h1 | h2
      · rcases List.mem_cons.1 h1 with rfl | h3
        · exact Or.inl rfl
        · rcases List.mem_append.1 h3 with h4 | h5
          · obtain ⟨ee, -, rfl⟩ := List.mem_map.1 h4
            exact Or.inl rfl
          · revert h5
            split
            · intro h5
              rw [List.mem_singleton.1 h5]
              exact Or.inl rfl
            · intro h5
              exact absurd h5 (List.not_mem_nil _)
      · exact Or.inr (ih _ e h2)

/-- C8: folds whose index is in `skip_folds` are bypassed entirely — the
run equals the run over the enumerated folds with the skipped entries
filtered out (so no dataset, model load, batch, score or report touches
them), and no observable event concerns a skipped fold index. -/
theorem skip_folds_bypassed (cfg : EvalConfig) (folds : List (List Finalization))
    (s : List ℕ) (st0 : EvalState) :
    Evaluator.predict cfg folds (some s) st0 =
      runFolds cfg none (folds.enum.filter fun p => !decide (p.1 ∈ s)) st0 ∧
    ∀ k ∈ s, ∀ e ∈ (Evaluator.predict cfg folds (some s) st0).2,
      eventFold e ≠ k := by
  have h1 := runFolds_skip_filter cfg s folds.enum st0
  refine ⟨h1, ?_⟩
  intro k hk e he hek
  rw [show Evaluator.predict cfg folds (some s) st0 =
    runFolds cfg (some s) folds.enum st0 from rfl, h1] at he
  have h2 := runFolds_events_fold cfg none _ st0 e he
  obtain ⟨p, hp, hpk⟩ := List.mem_map.1 h2
  have h3 := List.of_mem_filter hp
  simp only [Bool.not_eq_true', decide_eq_false_iff_not] at h3
  exact h3 ((hpk.trans hek) ▸ hk)

/-- C8 witness: skipping fold 1 of three folds — fold 0's model load is
among the observed events while no event concerns fold 1. -/
theorem skip_folds_bypassed_witness :
    eventFold (Event.modelLoaded 0) ≠ 1 :=
  (skip_folds_bypassed cfgPlain [[], [], []] [1] stInit).2 1 (by decide)
    (Event.modelLoaded 0) (by decide)

end Danesfield
